import Mathlib

/-!
Verification of the BF-to-IA-32 translator in `src/bfc.c`.

The development shallowly embeds the `compile` function of `bfc.c`
(lines 174-295) and the `-s` argument handling of `setup_info`
(lines 322-330) and `main`, and proves or refutes the frozen claims
about them.

Modelling conventions:
* Each `fprintf(as, ...)` call is one `String` in an ordered output list
  (the emission order is the list order, matching the streaming,
  append-only output of the C code).
* The loop stack `size_t *stack` together with `top` is a `List Nat`
  whose head is `stack[top - 1]` (the most recently pushed label);
  `stack_size` is the `cap` field.  Machine integers (`size_t` on the
  IA-32 target, hence 32-bit) never approach their overflow bound on the
  paths considered here, so they are modelled as `Nat`.
* Allocation (`malloc`/`realloc`) success is an environment oracle
  `alloc : Nat → Bool`; when the oracle denies a request the model
  returns the fatal error the C code reports via `error(...)`/`exit`.
* The out-of-bounds read `stack[--top]` that the C code performs when a
  `]` is scanned with `top == 0` is undefined behaviour and reports
  nothing; it is modelled as the distinguished outcome `Err.oobPop`
  (not a diagnostic: the C code has no check and no message there).
-/

deriving instance DecidableEq for Except

namespace Bfc

/-- The constant `STACK_SIZE = 1024` (bfc.c line 27): initial loop-stack capacity. -/
def STACK_SIZE : Nat := 1024

/-- Models `stack_size *= STACK_GROWTH_FACTOR` (bfc.c line 261) with
`STACK_GROWTH_FACTOR = 1.1` (line 28).  The C computes
`(size_t)((double)n * 1.1)`.  The IEEE-754 double nearest to 1.1 is
`D = 4953959590107546 / 2^52 = 11/10 + 1/(10 * 2^52)`; for every
`n < 2^32` (all values a 32-bit `size_t` can hold) the rounded product
`RN(n * D)` truncates to exactly `⌊11 * n / 10⌋`: the excess
`n * (D - 11/10) < 0.001` can neither push the product past the next
integer (the fractional part of `11n/10` is a multiple of `1/10`) nor
does rounding of the product cross an integer boundary.  So the exact
natural-number expression below is the function the C code computes. -/
def growSize (n : Nat) : Nat := 11 * n / 10

/-- Fatal outcomes of `compile` in bfc.c.  `oom n` models the
`error("Out of memory ...")` calls (lines 199, 264), which print a
diagnostic and `exit(EXIT_FAILURE)`.  `oobPop` models the *undefined*
out-of-bounds access `stack[--top]` at line 277 when `top == 0`
(unmatched `]`): the C code performs the access without any check and
without reporting anything. -/
inductive Err where
  | oom (requested : Nat) : Err
  | oobPop : Err
deriving DecidableEq, Repr

/-- The mutable state of `compile` while scanning the source:
`stack`/`top` (head = most recently pushed label), `stack_size`
(`cap`), and the label counter `loop`. -/
structure St where
  stack : List Nat
  cap : Nat
  loop : Nat
deriving DecidableEq, Repr

/-- Line printed for `>` (bfc.c line 220). -/
def addLine : String := "\tadd edi, 4\n"

/-- Line printed for `<` (bfc.c line 224). -/
def subLine : String := "\tsub edi, 4\n"

/-- Line printed for `+` (bfc.c line 228). -/
def incLine : String := "\tinc DWORD PTR [edi]\n"

/-- Line printed for `-` (bfc.c line 232). -/
def decLine : String := "\tdec DWORD PTR [edi]\n"

/-- The five lines emitted for `,` (bfc.c lines 240-244): a syscall with
`eax = 3`, `ebx = 0`, `ecx = edi`, `edx = 1`. -/
def commaLines : List String :=
  ["\tmov eax, 3\n", "\tmov ebx, 0\n", "\tmov ecx, edi\n",
   "\tmov edx, 1\n", "\tint 0x80\n"]

/-- The five lines emitted for `.` (bfc.c lines 252-256): a syscall with
`eax = 4`, `ebx = 1`, `ecx = edi`, `edx = 1`. -/
def dotLines : List String :=
  ["\tmov eax, 4\n", "\tmov ebx, 1\n", "\tmov ecx, edi\n",
   "\tmov edx, 1\n", "\tint 0x80\n"]

/-- The comparison line emitted for both `[` and `]` (lines 270, 276). -/
def cmpLine : String := "\tcmp DWORD PTR [edi], 0\n"

/-- The line `"\tjz .LE%u\n"` with label `l` (bfc.c line 271). -/
def jzLine (l : Nat) : String := "\tjz .LE" ++ toString l ++ "\n"

/-- The begin-label marker `".LB%u:\n"` (bfc.c line 272). -/
def lbLine (l : Nat) : String := ".LB" ++ toString l ++ ":\n"

/-- The line `"\tjnz .LB%u\n"` with label `l` (bfc.c line 277). -/
def jnzLine (l : Nat) : String := "\tjnz .LB" ++ toString l ++ "\n"

/-- The end-label marker `".LE%u:\n"` (bfc.c line 278). -/
def leLine (l : Nat) : String := ".LE" ++ toString l ++ ":\n"

/-- The three lines emitted for `[` with fresh label `l`
(bfc.c lines 270-272). -/
def openLines (l : Nat) : List String := [cmpLine, jzLine l, lbLine l]

/-- The three lines emitted for `]` popping label `l`
(bfc.c lines 276-278). -/
def closeLines (l : Nat) : List String := [cmpLine, jnzLine l, leLine l]

/-- Emission for the six non-bracket cases of the `switch` (bfc.c lines
218-257); the `switch` has no `default` case, so every unrecognized
byte emits nothing. -/
def baseLines : Char → List String
  | '>' => [addLine]
  | '<' => [subLine]
  | '+' => [incLine]
  | '-' => [decLine]
  | ',' => commaLines
  | '.' => dotLines
  | _ => []

/-- One iteration of the scanning loop of `compile` (bfc.c lines
216-281) on character `c`: the lines printed and the successor state.
`[` first grows the stack if `top == stack_size` (lines 259-266,
fatal `oom` if the `realloc` fails), then pushes `++loop` and emits;
`]` emits using `stack[--top]`, which is the undefined `oobPop`
outcome when the stack is empty. -/
def step (alloc : Nat → Bool) (s : St) : Char → Except Err (List String × St)
  | '[' =>
    let s1 : St :=
      if s.stack.length = s.cap then { s with cap := growSize s.cap } else s
    if s.stack.length = s.cap ∧ alloc (growSize s.cap) = false then
      .error (.oom (growSize s.cap))
    else
      .ok (openLines (s.loop + 1),
           { s1 with stack := (s.loop + 1) :: s1.stack, loop := s.loop + 1 })
  | ']' =>
    match s.stack with
    | [] => .error .oobPop
    | l :: rest => .ok (closeLines l, { s with stack := rest })
  | c => .ok (baseLines c, s)

/-- The continuation that prepends the lines of one step to the
outcome of scanning the rest of the input — the inner `match` of
`runBody`'s cons case, as a named function for congruence reasoning. -/
def contOut (o : List String) (r : Except Err (List String × St)) :
    Except Err (List String × St) :=
  match r with
  | .error e => .error e
  | .ok (o2, s2) => .ok (o ++ o2, s2)

/-- The capacity-blind observation of a scan outcome: the emitted
lines, the stack contents and the label counter (everything except the
capacity bookkeeping). -/
def obsOf (r : Except Err (List String × St)) :
    Except Err (List String × List Nat × Nat) :=
  r.map (fun p => (p.1, p.2.stack, p.2.loop))

/-- The scanning loop of `compile` (bfc.c lines 216-281) over the whole
character stream, concatenating the emitted lines. -/
def runBody (alloc : Nat → Bool) : List Char → St → Except Err (List String × St)
  | [], s => .ok ([], s)
  | c :: cs, s =>
    match step alloc s c with
    | .error e => .error e
    | .ok (o, s1) =>
      match runBody alloc cs s1 with
      | .error e => .error e
      | .ok (o2, s2) => .ok (o ++ o2, s2)

/-- The fixed prologue emitted before the scan (bfc.c lines 203-215):
assembler dialect, a zero-filled `cells` block of `cellsSize` bytes,
program entry, and the pointer initialisation `mov edi, OFFSET cells`. -/
def prologue (cellsSize : Nat) : List String :=
  [".intel_syntax noprefix\n",
   ".section .bss\n",
   "\t.lcomm cells, " ++ toString cellsSize ++ "\n",
   ".section .text\n",
   ".globl _start\n",
   "_start:\n",
   "\tmov edi, OFFSET cells\n"]

/-- The fixed epilogue emitted after the scan (bfc.c lines 284-290):
`sys_exit(0)` via `int 0x80`.  (The C writes these three lines without
a leading tab.) -/
def epilogue : List String := ["mov eax, 1\n", "mov ebx, 0\n", "int 0x80\n"]

/-- The function `compile` of bfc.c (lines 174-295), generalized over the initial
stack capacity (the C always starts from `STACK_SIZE`): allocate the
loop stack (fatal `oom` on failure, line 198), emit the prologue, scan
the source, emit the epilogue.  The final stack and label counter are
discarded, exactly as in the C code (no end-of-input check). -/
def compileFrom (alloc : Nat → Bool) (cap : Nat) (cellsSize : Nat)
    (src : List Char) : Except Err (List String) :=
  if alloc cap = false then .error (.oom cap)
  else
    match runBody alloc src { stack := [], cap := cap, loop := 0 } with
    | .error e => .error e
    | .ok (o, _) => .ok (prologue cellsSize ++ o ++ epilogue)

/-- The function `compile` of bfc.c with its actual initial capacity `STACK_SIZE`. -/
def compile (alloc : Nat → Bool) (cellsSize : Nat) (src : List Char) :
    Except Err (List String) :=
  compileFrom alloc STACK_SIZE cellsSize src

/-- The always-succeeding allocation environment. -/
def allocT : Nat → Bool := fun _ => true

/-- The initial scanner state of one `compile` call (bfc.c lines
179-181: `top = 0`, `stack_size = STACK_SIZE`, `loop = 0`). -/
def initSt : St := { stack := [], cap := STACK_SIZE, loop := 0 }

/-- The eight recognized symbols of the language (the eight `case`
labels of the `switch` in bfc.c lines 217-280). -/
def recognized : List Char := ['>', '<', '+', '-', ',', '.', '[', ']']

/-- Modelled from the spec: the read syscall number of the IA-32 Linux
`int 0x80` convention (`sys_read = 3`), which src/ does not define. -/
def sysRead : Nat := 3

/-- Modelled from the spec: the write syscall number of the IA-32 Linux
`int 0x80` convention (`sys_write = 4`), which src/ does not define. -/
def sysWrite : Nat := 4

/-- Modelled from the spec: the standard-input file descriptor (0) of
the target convention, which src/ does not define. -/
def fdStdin : Nat := 0

/-- Modelled from the spec: the standard-output file descriptor (1) of
the target convention, which src/ does not define. -/
def fdStdout : Nat := 1

/-- Bracket-balance automaton for one input character: `none` is the
sunk state reached after a `]` with no open `[`.  This is specification
apparatus (the C code has no such check); it defines well-formedness of
a symbol sequence. -/
def balStep : Option Nat → Char → Option Nat
  | none, _ => none
  | some d, c =>
    if c = '[' then some (d + 1)
    else if c = ']' then (if d = 0 then none else some (d - 1)) else some d

/-- Bracket balance of a whole sequence, `none` when some prefix closes
more loops than it opened. -/
def balScan (src : List Char) : Option Nat := src.foldl balStep (some 0)

/-- A symbol sequence is well-formed when every prefix has at least as
many `[` as `]` and the whole sequence has equally many. -/
def wellFormedB (src : List Char) : Bool := balScan src == some 0

/-- Syntax trees of well-formed sequences (the Dyck grammar of §3 of
the spec): `cons c t` is a non-loop character followed by `t`;
`loop b t` is `[` body `]` followed by `t`.  A `]` belongs to the same
`loop` node as its matching `[`, so the tree *is* the syntactic
bracket-matching. -/
inductive T where
  | nil : T
  | cons (c : Char) (t : T) : T
  | loop (body : T) (rest : T) : T
deriving DecidableEq, Repr

/-- The symbol sequence a tree denotes. -/
def flat : T → List Char
  | .nil => []
  | .cons c t => c :: flat t
  | .loop b t => '[' :: (flat b ++ (']' :: flat t))

/-- A tree is admissible when none of its `cons` characters is a
bracket (brackets occur only via `loop` nodes). -/
def okT : T → Bool
  | .nil => true
  | .cons c t => !(c = '[' : Bool) && !(c = ']' : Bool) && okT t
  | .loop b t => okT b && okT t

/-- The label counter left after a reference compilation of a tree
starting from counter `l`: each `loop` node allocates exactly one
fresh label. -/
def nextLabel : Nat → T → Nat
  | l, .nil => l
  | l, .cons _ t => nextLabel l t
  | l, .loop b t => nextLabel (nextLabel (l + 1) b) t

/-- Reference emission over the syntax tree, following the per-symbol
emission contract of the spec (§4.1): a `loop` node allocates the
fresh label `l + 1` and emits its open lines, its body, then its close
lines *with the same label* — begin/end pairing is by syntactic
matching, by construction.  `runBody` is proved to refine this. -/
def specOut : Nat → T → List String
  | _, .nil => []
  | l, .cons c t => baseLines c ++ specOut l t
  | l, .loop b t =>
      openLines (l + 1) ++ specOut (l + 1) b ++ closeLines (l + 1)
        ++ specOut (nextLabel (l + 1) b) t

/-- Whitespace test (`isspace` of the C locale) used by `strtol`: space, `\t`, `\n`,
`\v`, `\f`, `\r`. -/
def isSpaceC (c : Char) : Bool :=
  c = ' ' || c = '\t' || c = '\n' || c = '\r' || c.toNat = 11 || c.toNat = 12

/-- Numeric value of a digit character, or 99 for a non-digit (so that
`digVal c < base` tests digit-hood for every base up to 16). -/
def digVal (c : Char) : Nat :=
  if '0' ≤ c ∧ c ≤ '9' then c.toNat - '0'.toNat
  else if 'a' ≤ c ∧ c ≤ 'f' then c.toNat - 'a'.toNat + 10
  else if 'A' ≤ c ∧ c ≤ 'F' then c.toNat - 'A'.toNat + 10
  else 99

/-- Digit test for a given base. -/
def isDigitB (base : Nat) (c : Char) : Bool := digVal c < base

/-- The value `LONG_MAX` of the IA-32 target platform the compiler is built for
(ILP32: `long` is 32 bits).  bfc.c declares `int long cells_size`. -/
def LONG_MAX : Int := 2 ^ 31 - 1

/-- The value `LONG_MIN` of the IA-32 target platform (ILP32). -/
def LONG_MIN : Int := -(2 ^ 31)

/-- Result of `strtol`: the converted value, the unconsumed tail
(`*tail` in bfc.c line 324-325), and whether `errno` was set to
`ERANGE`. -/
structure StrtolOut where
  value : Int
  tail : List Char
  erange : Bool
deriving DecidableEq, Repr

/-- The overflow behaviour of `strtol`: values beyond the `long` range
are clamped to `LONG_MAX`/`LONG_MIN` and `errno` is set to `ERANGE`. -/
def clampLong (v : Int) (tail : List Char) : StrtolOut :=
  if v > LONG_MAX then { value := LONG_MAX, tail := tail, erange := true }
  else if v < LONG_MIN then { value := LONG_MIN, tail := tail, erange := true }
  else { value := v, tail := tail, erange := false }

/-- The final stage of `strtol`: when no digits were consumed the
result is 0 with the tail at the *original* string; otherwise the
digit run is evaluated in the detected base, signed, and clamped. -/
def strtolFinish (input : List Char) (neg : Bool) (base : Nat)
    (digs rest : List Char) : StrtolOut :=
  if digs = [] then { value := 0, tail := input, erange := false }
  else
    clampLong
      (if neg then -((digs.foldl (fun acc c => acc * base + digVal c) 0 : Nat) : Int)
       else ((digs.foldl (fun acc c => acc * base + digVal c) 0 : Nat) : Int))
      rest

/-- The call `strtol(optarg, &tail, 0)` of bfc.c line 324: skip
whitespace, optional sign, base detection (`0x`/`0X` prefix means
hexadecimal when a hexadecimal digit follows, a leading `0` means
octal, otherwise decimal), longest digit run, clamping to
`LONG_MAX`/`LONG_MIN` with `ERANGE` on overflow; when no digits can be
consumed the tail is the whole original string. -/
def strtol0 (input : List Char) : StrtolOut :=
  let afterWs := input.dropWhile isSpaceC
  let signRest : Bool × List Char :=
    match afterWs with
    | '-' :: r => (true, r)
    | '+' :: r => (false, r)
    | r => (false, r)
  let neg := signRest.1
  let afterSign := signRest.2
  let baseRest : Nat × List Char :=
    match afterSign with
    | '0' :: x :: r =>
      if (x = 'x' || x = 'X') &&
         (match r with | d :: _ => isDigitB 16 d | [] => false)
      then (16, r) else (8, '0' :: x :: r)
    | r => (8, r)
  let base := if afterSign.head? = some '0' then baseRest.1 else 10
  let afterBase := if afterSign.head? = some '0' then baseRest.2 else afterSign
  let digs := afterBase.takeWhile (fun c => isDigitB base c)
  let rest := afterBase.dropWhile (fun c => isDigitB base c)
  strtolFinish input neg base digs rest

/-- The `-s` handling of `setup_info` (bfc.c lines 322-330): reject
(`return 0`) when `errno` is set, the tail is not at the terminator, or
the value is non-positive; otherwise store into the `unsigned int`
field `cells_size` (every accepted value is at most `LONG_MAX`, which
fits `unsigned int` unchanged on the 32-bit target). -/
def parseCellsSize (arg : List Char) : Option Nat :=
  if (strtol0 arg).erange = true ∨ (strtol0 arg).tail ≠ [] ∨
     (strtol0 arg).value ≤ 0 then none
  else some (strtol0 arg).value.toNat

/-- Top-level errors of the modelled `main`. -/
inductive MainErr where
  | usageErr : MainErr
  | compileErr (e : Err) : MainErr
deriving DecidableEq, Repr

/-- The translation phase of `main` (bfc.c lines 64-103) restricted to
what affects translation: the default `cells_size` is 4096 (line 66);
if `setup_info` returns 0 — in particular when the `-s` argument is
rejected — `main` calls `error(...)` and exits before any translation
(lines 80-84); otherwise `compile` runs with the configured size.
(`-S`/`-c`/`-o` and the filenames select stages and names only and do
not affect the translation output.) -/
def mainModel (alloc : Nat → Bool) (sArg : Option (List Char))
    (src : List Char) : Except MainErr (List String) :=
  match sArg with
  | none => (compile alloc 4096 src).mapError .compileErr
  | some a =>
    match parseCellsSize a with
    | none => .error .usageErr
    | some v => (compile alloc v src).mapError .compileErr

/-! ### Basic facts about `step` and `runBody` -/

theorem step_open (s : St) :
    step allocT s '[' =
      .ok (openLines (s.loop + 1),
           { stack := (s.loop + 1) :: s.stack,
             cap := if s.stack.length = s.cap then growSize s.cap else s.cap,
             loop := s.loop + 1 }) := by
  have hne : ¬ (s.stack.length = s.cap ∧ allocT (growSize s.cap) = false) := by
    simp [allocT]
  simp only [step, if_neg hne]
  by_cases h : s.stack.length = s.cap <;> simp [h]

theorem step_close (s : St) (l : Nat) (rest : List Nat)
    (h : s.stack = l :: rest) (a : Nat → Bool) :
    step a s ']' = .ok (closeLines l, { s with stack := rest }) := by
  simp only [step, h]

theorem step_close_nil (s : St) (h : s.stack = []) (a : Nat → Bool) :
    step a s ']' = .error .oobPop := by
  simp only [step, h]

theorem step_other (a : Nat → Bool) (s : St) (c : Char)
    (h1 : c ≠ '[') (h2 : c ≠ ']') :
    step a s c = .ok (baseLines c, s) := by
  unfold step
  split
  · exact absurd rfl h1
  · exact absurd rfl h2
  · rfl

theorem baseLines_eq_nil {c : Char} (h : ¬ c ∈ recognized) :
    baseLines c = [] := by
  unfold baseLines
  split <;> simp_all [recognized]

theorem runBody_nil (a : Nat → Bool) (s : St) :
    runBody a [] s = .ok ([], s) := rfl

theorem runBody_cons (a : Nat → Bool) (c : Char) (cs : List Char) (s : St) :
    runBody a (c :: cs) s =
      match step a s c with
      | .error e => .error e
      | .ok (o, s1) =>
        match runBody a cs s1 with
        | .error e => .error e
        | .ok (o2, s2) => .ok (o ++ o2, s2) := rfl

theorem runBody_append (a : Nat → Bool) (xs ys : List Char) (s : St) :
    runBody a (xs ++ ys) s =
      match runBody a xs s with
      | .error e => .error e
      | .ok (o1, s1) =>
        match runBody a ys s1 with
        | .error e => .error e
        | .ok (o2, s2) => .ok (o1 ++ o2, s2) := by
  induction xs generalizing s with
  | nil =>
    simp only [List.nil_append, runBody_nil]
    cases h : runBody a ys s with
    | error e => simp
    | ok p => obtain ⟨o2, s2⟩ := p; simp
  | cons c cs ih =>
    simp only [List.cons_append, runBody_cons]
    cases h : step a s c with
    | error e => simp
    | ok p =>
      obtain ⟨o, s1⟩ := p
      simp only []
      rw [ih s1]
      cases h2 : runBody a cs s1 with
      | error e => simp
      | ok q =>
        obtain ⟨o2, s2⟩ := q
        cases h3 : runBody a ys s2 with
        | error e => simp [h3]
        | ok r => obtain ⟨o3, s3⟩ := r; simp [h3]

/-! ### C1: the symbol-to-syscall pairing -/

/-- C1, counterexample: the claim pairs `,` with the *write* syscall,
but the sequence emitted for `,` loads `eax` with 3 — the *read*
syscall number of the target convention — not with the write syscall
number 4 (which is what `.` loads).  So `,` does not pair with the
write syscall and `.` does not pair with the read syscall. -/
theorem c1_syscall_pairing_counterexample :
    step allocT initSt ',' = .ok (commaLines, initSt) ∧
    commaLines.head? = some ("\tmov eax, " ++ toString sysRead ++ "\n") ∧
    ¬ commaLines.head? = some ("\tmov eax, " ++ toString sysWrite ++ "\n") ∧
    step allocT initSt '.' = .ok (dotLines, initSt) ∧
    dotLines.head? = some ("\tmov eax, " ++ toString sysWrite ++ "\n") ∧
    ¬ dotLines.head? = some ("\tmov eax, " ++ toString sysRead ++ "\n") := by
  decide

/-- C1, amended: for every occurrence of `,` the translator emits the
fixed five-line sequence invoking the *read* syscall (`eax = sys_read`,
one byte from standard input, `fd 0`, into the current cell at `edi`),
and for every occurrence of `.` the fixed sequence invoking the *write*
syscall (`eax = sys_write`, one byte from the current cell to standard
output, `fd 1`).  The pairing is the reverse of the one claimed. -/
theorem c1_syscall_pairing_amended : ∀ (a : Nat → Bool) (s : St),
    step a s ',' = .ok (commaLines, s) ∧
    step a s '.' = .ok (dotLines, s) ∧
    commaLines = ["\tmov eax, " ++ toString sysRead ++ "\n",
                  "\tmov ebx, " ++ toString fdStdin ++ "\n",
                  "\tmov ecx, edi\n", "\tmov edx, 1\n", "\tint 0x80\n"] ∧
    dotLines = ["\tmov eax, " ++ toString sysWrite ++ "\n",
                "\tmov ebx, " ++ toString fdStdout ++ "\n",
                "\tmov ecx, edi\n", "\tmov edx, 1\n", "\tint 0x80\n"] := by
  intro a s
  refine ⟨?_, ?_, by decide, by decide⟩
  · exact step_other a s ',' (by decide) (by decide)
  · exact step_other a s '.' (by decide) (by decide)

/-- C2: the translator does *not* detect ill-formed bracket structure.
On the unmatched-`[` input `"["` it completes as if successful,
emitting prologue, the open-loop lines for the never-closed label 1,
and the epilogue; on the unmatched-`]` input `"]"` it performs the
unchecked out-of-bounds pop (`stack[--top]` with `top == 0`, undefined
behaviour), again without reporting any structural error. -/
theorem c2_no_structural_error_check :
    compile allocT 4096 ['['] =
      .ok (prologue 4096 ++ openLines 1 ++ epilogue) ∧
    compile allocT 4096 [']'] = .error .oobPop := by
  decide

/-- C7: on input `[-]` the translator emits, between prologue and
epilogue, exactly the seven lines of one loop with one label pair
(label 1), in which the `jz`-to-end check precedes the begin marker
`.LB1:`, the single decrement lies strictly between the begin and end
markers, and the `jnz`-to-begin check precedes the end marker
`.LE1:`; no other begin or end marker occurs. -/
theorem c7_loop_emission_order :
    compile allocT 4096 ['[', '-', ']'] =
      .ok (prologue 4096 ++
           [cmpLine, jzLine 1, lbLine 1, decLine, cmpLine, jnzLine 1, leLine 1]
           ++ epilogue) ∧
    ([cmpLine, jzLine 1, lbLine 1, decLine, cmpLine, jnzLine 1,
      leLine 1].count (lbLine 1) = 1 ∧
     [cmpLine, jzLine 1, lbLine 1, decLine, cmpLine, jnzLine 1,
      leLine 1].count (leLine 1) = 1) ∧
    ([cmpLine, jzLine 1, lbLine 1, decLine, cmpLine, jnzLine 1,
      leLine 1].indexOf (jzLine 1) <
     [cmpLine, jzLine 1, lbLine 1, decLine, cmpLine, jnzLine 1,
      leLine 1].indexOf (lbLine 1) ∧
     [cmpLine, jzLine 1, lbLine 1, decLine, cmpLine, jnzLine 1,
      leLine 1].indexOf (lbLine 1) <
     [cmpLine, jzLine 1, lbLine 1, decLine, cmpLine, jnzLine 1,
      leLine 1].indexOf decLine ∧
     [cmpLine, jzLine 1, lbLine 1, decLine, cmpLine, jnzLine 1,
      leLine 1].indexOf decLine <
     [cmpLine, jzLine 1, lbLine 1, decLine, cmpLine, jnzLine 1,
      leLine 1].indexOf (leLine 1) ∧
     [cmpLine, jzLine 1, lbLine 1, decLine, cmpLine, jnzLine 1,
      leLine 1].indexOf (jnzLine 1) <
     [cmpLine, jzLine 1, lbLine 1, decLine, cmpLine, jnzLine 1,
      leLine 1].indexOf (leLine 1)) := by
  decide

/-- C8: a byte that is not one of the eight recognized symbols is
skipped with no side effect (no line emitted, stack, capacity and
label counter unchanged), and a source containing no recognized symbol
compiles to exactly the fixed prologue followed by the fixed epilogue
with an empty instruction body. -/
theorem c8_unrecognized_inert :
    (∀ (a : Nat → Bool) (s : St) (c : Char),
       ¬ c ∈ recognized → step a s c = .ok ([], s)) ∧
    (∀ (a : Nat → Bool) (n : Nat) (src : List Char),
       (∀ c ∈ src, ¬ c ∈ recognized) → a STACK_SIZE = true →
       compile a n src = .ok (prologue n ++ epilogue)) := by
  have hstep : ∀ (a : Nat → Bool) (s : St) (c : Char),
      ¬ c ∈ recognized → step a s c = .ok ([], s) := by
    intro a s c hc
    have h1 : c ≠ '[' := fun h => hc (by simp [recognized, h])
    have h2 : c ≠ ']' := fun h => hc (by simp [recognized, h])
    rw [step_other a s c h1 h2, baseLines_eq_nil hc]
  refine ⟨hstep, ?_⟩
  intro a n src hsrc ha
  have hrun : ∀ (src : List Char) (s : St), (∀ c ∈ src, ¬ c ∈ recognized) →
      runBody a src s = .ok ([], s) := by
    intro src
    induction src with
    | nil => intro s _; rfl
    | cons c cs ih =>
      intro s h
      have hc := h c (by simp)
      have hcs : ∀ x ∈ cs, ¬ x ∈ recognized := fun x hx => h x (by simp [hx])
      simp [runBody_cons, hstep a s c hc, ih s hcs]
  have hr := hrun src { stack := [], cap := STACK_SIZE, loop := 0 } hsrc
  simp [compile, compileFrom, ha, hr]

/-- C8 witness: the symbol-free source `hello` compiles to prologue
followed immediately by epilogue, and the unrecognized byte `x` is a
no-op for the scanner state. -/
theorem c8_unrecognized_inert_witness :
    step allocT initSt 'x' = .ok ([], initSt) ∧
    compile allocT 4096 ['h', 'e', 'l', 'l', 'o'] =
      .ok (prologue 4096 ++ epilogue) :=
  ⟨c8_unrecognized_inert.1 allocT initSt 'x' (by decide),
   c8_unrecognized_inert.2 allocT 4096 ['h', 'e', 'l', 'l', 'o']
     (by decide) (by decide)⟩

/-! ### Stack growth arithmetic and a characterization of `step` -/

theorem growSize_le_self (n : Nat) : n ≤ growSize n := by
  unfold growSize
  rw [Nat.le_div_iff_mul_le (by norm_num)]
  omega

theorem growSize_progress {n : Nat} (h : 10 ≤ n) : n + 1 ≤ growSize n := by
  unfold growSize
  rw [Nat.le_div_iff_mul_le (by norm_num)]
  omega

theorem step_cases (a : Nat → Bool) (s : St) (c : Char) (o : List String)
    (s1 : St) (h : step a s c = .ok (o, s1)) :
    (c = '[' ∧ s1.stack = (s.loop + 1) :: s.stack ∧ s1.loop = s.loop + 1 ∧
      s1.cap = (if s.stack.length = s.cap then growSize s.cap else s.cap) ∧
      o = openLines (s.loop + 1)) ∨
    (c = ']' ∧ ∃ l, s.stack = l :: s1.stack ∧ s1.loop = s.loop ∧
      s1.cap = s.cap ∧ o = closeLines l) ∨
    (c ≠ '[' ∧ c ≠ ']' ∧ s1 = s ∧ o = baseLines c) := by
  by_cases h1 : c = '['
  · subst h1
    left
    simp only [step] at h
    split at h
    · exact absurd h (by simp)
    · rw [Except.ok.injEq, Prod.mk.injEq] at h
      obtain ⟨ho, hs⟩ := h
      subst ho
      subst hs
      refine ⟨rfl, ?_, rfl, ?_, rfl⟩ <;> split <;> rfl
  · by_cases h2 : c = ']'
    · subst h2
      right; left
      refine ⟨rfl, ?_⟩
      simp only [step] at h
      cases hst : s.stack with
      | nil => rw [hst] at h; exact absurd h (by simp)
      | cons l rest =>
        rw [hst] at h
        rw [Except.ok.injEq, Prod.mk.injEq] at h
        obtain ⟨ho, hs⟩ := h
        subst ho
        subst hs
        exact ⟨l, rfl, rfl, rfl, rfl⟩
    · right; right
      rw [step_other a s c h1 h2, Except.ok.injEq, Prod.mk.injEq] at h
      obtain ⟨ho, hs⟩ := h
      exact ⟨h1, h2, hs.symm, ho.symm⟩

/-- In every successful scan the label counter advances by exactly the
number of `[` scanned (`++loop` happens exactly once per `[`). -/
theorem runBody_loop_count (a : Nat → Bool) :
    ∀ (p : List Char) (s : St) (o : List String) (s1 : St),
      runBody a p s = .ok (o, s1) → s1.loop = s.loop + p.count '[' := by
  intro p
  induction p with
  | nil =>
    intro s o s1 h
    rw [runBody_nil, Except.ok.injEq, Prod.mk.injEq] at h
    rw [← h.2]
    simp
  | cons c cs ih =>
    intro s o s1 h
    rw [runBody_cons] at h
    split at h
    · exact absurd h (by simp)
    · rename_i o1 smid hstep
      split at h
      · exact absurd h (by simp)
      · rename_i o2 s2 hrun
        rw [Except.ok.injEq, Prod.mk.injEq] at h
        have hs2 : s2 = s1 := h.2
        subst hs2
        have hmid := ih smid o2 s2 hrun
        rcases step_cases a s c o1 smid hstep with
          ⟨hc, _, hl, _, _⟩ | ⟨hc, l, _, hl, _, _⟩ | ⟨hc1, hc2, hss, _⟩
        · subst hc
          rw [List.count_cons_self]
          omega
        · subst hc
          rw [List.count_cons_of_ne (by decide)]
          omega
        · subst hss
          rw [List.count_cons_of_ne (fun hh => hc1 hh.symm)]
          omega

/-- C3: labels are allocated in strictly increasing source order of
their `[` and never reused, and every label is positive.  Concretely:
(1) after scanning any prefix `p` the label counter is the initial
counter plus the number of `[` in `p`, in every successful run, under
any allocation environment — so stack growth cannot perturb it;
(2) the `[` that follows prefix `p` allocates, emits and pushes exactly
label `s.loop + p.count '[' + 1` (the capacity existential covers the
growth case); (3) a `[` occurring strictly later in the source (after a
prefix `p2` extending `p1 ++ "["`) receives a strictly larger label
than the `[` after `p1`, so labels strictly increase with source
position and are never reused; (4) every allocated label is positive. -/
theorem c3_label_allocation :
    (∀ (a : Nat → Bool) (p : List Char) (s : St) (o : List String) (s1 : St),
       runBody a p s = .ok (o, s1) → s1.loop = s.loop + p.count '[') ∧
    (∀ (p : List Char) (s : St) (o : List String) (s1 : St),
       runBody allocT p s = .ok (o, s1) →
       ∃ cap', step allocT s1 '[' =
         .ok (openLines (s.loop + p.count '[' + 1),
              { stack := (s.loop + p.count '[' + 1) :: s1.stack,
                cap := cap',
                loop := s.loop + p.count '[' + 1 })) ∧
    (∀ (l : Nat) (p1 p2 : List Char), (∃ q, p2 = p1 ++ '[' :: q) →
       l + p1.count '[' + 1 < l + p2.count '[' + 1) ∧
    (∀ (l : Nat) (p : List Char), 0 < l + p.count '[' + 1) := by
  refine ⟨runBody_loop_count, ?_, ?_, ?_⟩
  · intro p s o s1 h
    have hl := runBody_loop_count allocT p s o s1 h
    refine ⟨if s1.stack.length = s1.cap then growSize s1.cap else s1.cap, ?_⟩
    rw [step_open s1, hl]
  · rintro l p1 p2 ⟨q, rfl⟩
    rw [List.count_append, List.count_cons_self]
    omega
  · intro l p
    omega

/-- C3 witness: scanning `[x[` advances the counter to 2; the next `[`
after that prefix allocates label 3, and it does so also from a *full*
stack of capacity 10 (the growth path: capacity 10 grows to 11 and
label 11 is pushed); strict ordering and positivity at concrete
prefixes. -/
theorem c3_label_allocation_witness :
    (let s1 : St := { stack := [2, 1], cap := 1024, loop := 2 };
     s1.loop = initSt.loop + (['[', 'x', '[']).count '[') ∧
    (∃ cap', step allocT { stack := [2, 1], cap := 1024, loop := 2 } '[' =
       .ok (openLines 3, { stack := [3, 2, 1], cap := cap', loop := 3 })) ∧
    (∃ cap',
       step allocT { stack := [10, 9, 8, 7, 6, 5, 4, 3, 2, 1], cap := 10,
                     loop := 10 } '[' =
         .ok (openLines 11,
              { stack := [11, 10, 9, 8, 7, 6, 5, 4, 3, 2, 1], cap := cap',
                loop := 11 })) ∧
    0 + ([] : List Char).count '[' + 1 < 0 + (['[', '+']).count '[' + 1 ∧
    0 < 0 + (['[', 'x', '[']).count '[' + 1 := by
  refine ⟨?_, ?_, ?_, ?_, ?_⟩
  · exact c3_label_allocation.1 allocT ['[', 'x', '['] initSt
      (openLines 1 ++ openLines 2) { stack := [2, 1], cap := 1024, loop := 2 }
      (by decide)
  · exact c3_label_allocation.2.1 ['[', 'x', '['] initSt
      (openLines 1 ++ openLines 2) { stack := [2, 1], cap := 1024, loop := 2 }
      (by decide)
  · exact c3_label_allocation.2.1 []
      { stack := [10, 9, 8, 7, 6, 5, 4, 3, 2, 1], cap := 10, loop := 10 } []
      { stack := [10, 9, 8, 7, 6, 5, 4, 3, 2, 1], cap := 10, loop := 10 } rfl
  · exact c3_label_allocation.2.2.1 0 [] ['[', '+'] ⟨['+'], rfl⟩
  · exact c3_label_allocation.2.2.2 0 ['[', 'x', '[']

/-! ### The scan invariant

The workhorse: if no prefix of the remaining input closes more loops
than are open (counting the loops already on the stack), the scan
succeeds, the final depth is determined by the bracket counts, the
label counter advances by the number of `[`, the capacity never
shrinks, and the in-bounds invariant `top ≤ stack_size` is preserved
(for the capacities `compile` can reach, which all satisfy `10 ≤ cap`,
growth makes strict progress). -/

theorem runBody_bal :
    ∀ (src : List Char) (s : St),
      (∀ p q, src = p ++ q → p.count ']' ≤ p.count '[' + s.stack.length) →
      ∃ o s', runBody allocT src s = .ok (o, s') ∧
        s'.stack.length + src.count ']' = s.stack.length + src.count '[' ∧
        s'.loop = s.loop + src.count '[' ∧
        s.cap ≤ s'.cap ∧
        (s.stack.length ≤ s.cap → 10 ≤ s.cap →
          (s'.stack.length ≤ s'.cap ∧ 10 ≤ s'.cap)) := by
  intro src
  induction src with
  | nil =>
    intro s _
    exact ⟨[], s, rfl, by simp, by simp, le_refl _, fun h1 h2 => ⟨h1, h2⟩⟩
  | cons c cs ih =>
    intro s h
    by_cases hc1 : c = '['
    · subst hc1
      have hstep := step_open s
      obtain ⟨o2, s2, hrun, hlen0, hloop0, hcap0, hbound0⟩ :=
        ih { stack := (s.loop + 1) :: s.stack,
             cap := if s.stack.length = s.cap then growSize s.cap else s.cap,
             loop := s.loop + 1 }
          (by
            intro p q hpq
            have hh := h ('[' :: p) q (by rw [hpq, List.cons_append])
            rw [List.count_cons_of_ne (by decide), List.count_cons_self] at hh
            show p.count ']' ≤ p.count '[' + (s.stack.length + 1)
            omega)
      have hlen : s2.stack.length + cs.count ']' =
          s.stack.length + 1 + cs.count '[' := hlen0
      have hloop : s2.loop = s.loop + 1 + cs.count '[' := hloop0
      have hcap : (if s.stack.length = s.cap then growSize s.cap else s.cap) ≤
          s2.cap := hcap0
      have hbound :
          s.stack.length + 1 ≤
              (if s.stack.length = s.cap then growSize s.cap else s.cap) →
            10 ≤ (if s.stack.length = s.cap then growSize s.cap else s.cap) →
            (s2.stack.length ≤ s2.cap ∧ 10 ≤ s2.cap) := hbound0
      refine ⟨openLines (s.loop + 1) ++ o2, s2, ?_, ?_, ?_, ?_, ?_⟩
      · simp [runBody_cons, hstep, hrun]
      · rw [List.count_cons_of_ne (by decide), List.count_cons_self]
        omega
      · rw [List.count_cons_self]
        omega
      · refine le_trans ?_ hcap
        split
        · exact growSize_le_self _
        · exact le_refl _
      · intro hle h10
        apply hbound
        · by_cases heq : s.stack.length = s.cap
          · rw [if_pos heq, heq]
            exact growSize_progress h10
          · rw [if_neg heq]
            omega
        · by_cases heq : s.stack.length = s.cap
          · rw [if_pos heq]
            exact le_trans h10 (growSize_le_self _)
          · rw [if_neg heq]
            exact h10
    · by_cases hc2 : c = ']'
      · subst hc2
        have h1 := h [']'] cs rfl
        have hcnt1 : ([']'] : List Char).count ']' = 1 := by decide
        have hcnt2 : ([']'] : List Char).count '[' = 0 := by decide
        have hlen1 : 1 ≤ s.stack.length := by omega
        obtain ⟨l, rest, hst⟩ :=
          List.exists_cons_of_ne_nil
            (List.length_pos.mp (show 0 < s.stack.length by omega))
        have hstep := step_close s l rest hst allocT
        have hstlen : s.stack.length = rest.length + 1 := by
          rw [hst]
          rfl
        obtain ⟨o2, s2, hrun, hlen0, hloop0, hcap0, hbound0⟩ :=
          ih { s with stack := rest }
            (by
              intro p q hpq
              have hh := h (']' :: p) q (by rw [hpq, List.cons_append])
              rw [List.count_cons_self, List.count_cons_of_ne (by decide)] at hh
              show p.count ']' ≤ p.count '[' + rest.length
              omega)
        have hlen : s2.stack.length + cs.count ']' =
            rest.length + cs.count '[' := hlen0
        have hloop : s2.loop = s.loop + cs.count '[' := hloop0
        have hcap : s.cap ≤ s2.cap := hcap0
        have hbound : rest.length ≤ s.cap → 10 ≤ s.cap →
            (s2.stack.length ≤ s2.cap ∧ 10 ≤ s2.cap) := hbound0
        refine ⟨closeLines l ++ o2, s2, ?_, ?_, ?_, hcap, ?_⟩
        · simp [runBody_cons, hstep, hrun]
        · rw [List.count_cons_self, List.count_cons_of_ne (by decide)]
          omega
        · rw [List.count_cons_of_ne (by decide)]
          exact hloop
        · intro hle h10
          exact hbound (by omega) h10
      · have hstep := step_other allocT s c hc1 hc2
        obtain ⟨o2, s2, hrun, hlen, hloop, hcap, hbound⟩ :=
          ih s
            (by
              intro p q hpq
              have hh := h (c :: p) q (by rw [hpq, List.cons_append])
              rw [List.count_cons_of_ne (Ne.symm hc2),
                  List.count_cons_of_ne (Ne.symm hc1)] at hh
              exact hh)
        refine ⟨baseLines c ++ o2, s2, ?_, ?_, ?_, hcap, hbound⟩
        · simp [runBody_cons, hstep, hrun]
        · rw [List.count_cons_of_ne (Ne.symm hc2),
              List.count_cons_of_ne (Ne.symm hc1)]
          omega
        · rw [List.count_cons_of_ne (Ne.symm hc1)]
          exact hloop

/-! ### Well-formedness and bracket counting -/

theorem balStep_open (d : Nat) : balStep (some d) '[' = some (d + 1) := rfl

theorem balStep_close (d : Nat) :
    balStep (some d) ']' = if d = 0 then none else some (d - 1) := rfl

theorem balStep_other (d : Nat) (c : Char) (h1 : c ≠ '[') (h2 : c ≠ ']') :
    balStep (some d) c = some d := by
  show (if c = '[' then some (d + 1)
        else if c = ']' then (if d = 0 then none else some (d - 1))
        else some d) = some d
  rw [if_neg h1, if_neg h2]

theorem foldl_balStep_none : ∀ (p : List Char), p.foldl balStep none = none := by
  intro p
  induction p with
  | nil => rfl
  | cons c cs ih => simpa [balStep] using ih

theorem foldl_balStep_some : ∀ (p : List Char) (d0 d : Nat),
    p.foldl balStep (some d0) = some d →
    d + p.count ']' = d0 + p.count '[' := by
  intro p
  induction p with
  | nil =>
    intro d0 d h
    rw [List.foldl_nil, Option.some.injEq] at h
    simp [h]
  | cons c cs ih =>
    intro d0 d h
    rw [List.foldl_cons] at h
    by_cases hc1 : c = '['
    · subst hc1
      rw [balStep_open] at h
      have := ih (d0 + 1) d h
      rw [List.count_cons_of_ne (by decide), List.count_cons_self]
      omega
    · by_cases hc2 : c = ']'
      · subst hc2
        rw [balStep_close] at h
        by_cases hd : d0 = 0
        · rw [if_pos hd, foldl_balStep_none] at h
          exact absurd h (by simp)
        · rw [if_neg hd] at h
          have := ih (d0 - 1) d h
          rw [List.count_cons_self, List.count_cons_of_ne (by decide)]
          omega
      · rw [balStep_other d0 c hc1 hc2] at h
        have := ih d0 d h
        rw [List.count_cons_of_ne (Ne.symm hc2),
            List.count_cons_of_ne (Ne.symm hc1)]
        omega

theorem wf_balScan {src : List Char} (hwf : wellFormedB src = true) :
    balScan src = some 0 := by
  simpa [wellFormedB] using hwf

/-- A prefix of a well-formed sequence never closes more than it opened. -/
theorem wf_count_le {src : List Char} (hwf : wellFormedB src = true) :
    ∀ p q, src = p ++ q → p.count ']' ≤ p.count '[' := by
  intro p q hpq
  have h0 := wf_balScan hwf
  rw [hpq] at h0
  unfold balScan at h0
  rw [List.foldl_append] at h0
  cases hbp : p.foldl balStep (some 0) with
  | none =>
    rw [hbp, foldl_balStep_none] at h0
    exact absurd h0 (by simp)
  | some d =>
    have := foldl_balStep_some p 0 d hbp
    omega

/-- A well-formed sequence has equally many `[` and `]`. -/
theorem wf_count_eq {src : List Char} (hwf : wellFormedB src = true) :
    src.count ']' = src.count '[' := by
  have := foldl_balStep_some src 0 0 (wf_balScan hwf)
  omega

/-- C10: on a well-formed source, every loop-stack access of the scan
is in bounds.  (1) The whole scan succeeds — in particular the
out-of-bounds pop branch (`Err.oobPop`, the model of the unchecked
`stack[--top]` with `top == 0`) is never reached.  (2) At each `[`,
after the prefix before it the stack index `top` is at most the
capacity, and the index the push writes (`top`) is strictly below the
capacity in force when the write happens — below `growSize cap` when
the stack was full and had to grow first, below `cap` otherwise.
(3) At each `]` the stack is non-empty, so the pop reads a written
slot and `top` cannot underflow. -/
theorem c10_accesses_in_bounds : ∀ (src : List Char), wellFormedB src = true →
    (∃ o s', runBody allocT src initSt = .ok (o, s')) ∧
    (∀ p q, src = p ++ '[' :: q →
      ∃ o1 s1, runBody allocT p initSt = .ok (o1, s1) ∧
        s1.stack.length ≤ s1.cap ∧
        (s1.stack.length = s1.cap → s1.stack.length < growSize s1.cap) ∧
        (s1.stack.length ≠ s1.cap → s1.stack.length < s1.cap)) ∧
    (∀ p q, src = p ++ ']' :: q →
      ∃ o1 s1, runBody allocT p initSt = .ok (o1, s1) ∧ s1.stack ≠ []) := by
  intro src hwf
  have hpre : ∀ p q, src = p ++ q →
      p.count ']' ≤ p.count '[' + initSt.stack.length := by
    intro p q hpq
    have := wf_count_le hwf p q hpq
    simpa [initSt] using this
  refine ⟨?_, ?_, ?_⟩
  · obtain ⟨o, s', hrun, _⟩ := runBody_bal src initSt hpre
    exact ⟨o, s', hrun⟩
  · intro p q hpq
    obtain ⟨o1, s1, hrun, hlen, hloop, hcap, hbound⟩ :=
      runBody_bal p initSt (fun p1 q1 h1 =>
        hpre p1 (q1 ++ '[' :: q) (by rw [hpq, h1, List.append_assoc]))
    have hb := hbound (by decide) (by decide)
    refine ⟨o1, s1, hrun, hb.1, ?_, ?_⟩
    · intro heq
      have := growSize_progress hb.2
      omega
    · intro hne
      have := hb.1
      omega
  · intro p q hpq
    obtain ⟨o1, s1, hrun, hlen, _⟩ :=
      runBody_bal p initSt (fun p1 q1 h1 =>
        hpre p1 (q1 ++ ']' :: q) (by rw [hpq, h1, List.append_assoc]))
    have hclose := wf_count_le hwf (p ++ [']']) q
      (by rw [hpq, List.append_assoc]; rfl)
    rw [List.count_append, List.count_append] at hclose
    have hc1 : ([']'] : List Char).count ']' = 1 := by decide
    have hc2 : ([']'] : List Char).count '[' = 0 := by decide
    have hlen' : s1.stack.length + p.count ']' =
        initSt.stack.length + p.count '[' := hlen
    refine ⟨o1, s1, hrun, ?_⟩
    intro hnil
    rw [hnil] at hlen'
    simp [initSt] at hlen'
    omega

/-- C10 witness: the well-formed source `[.[-]]` scans successfully;
before its first `[` the stack holds 0 of 1024 slots; before its `]`s
the stack is non-empty. -/
theorem c10_accesses_in_bounds_witness :
    wellFormedB ['[', '.', '[', '-', ']', ']'] = true ∧
    ((∃ o s', runBody allocT ['[', '.', '[', '-', ']', ']'] initSt =
        .ok (o, s')) ∧
     (∃ o1 s1, runBody allocT [] initSt = .ok (o1, s1) ∧
        s1.stack.length ≤ s1.cap ∧
        (s1.stack.length = s1.cap → s1.stack.length < growSize s1.cap) ∧
        (s1.stack.length ≠ s1.cap → s1.stack.length < s1.cap)) ∧
     (∃ o1 s1, runBody allocT ['[', '.', '[', '-'] initSt = .ok (o1, s1) ∧
        s1.stack ≠ [])) :=
  ⟨by decide,
   (c10_accesses_in_bounds ['[', '.', '[', '-', ']', ']'] (by decide)).1,
   (c10_accesses_in_bounds ['[', '.', '[', '-', ']', ']'] (by decide)).2.1
     [] ['.', '[', '-', ']', ']'] rfl,
   (c10_accesses_in_bounds ['[', '.', '[', '-', ']', ']'] (by decide)).2.2
     ['[', '.', '[', '-'] [']'] rfl⟩

/-! ### Refinement of the reference tree emitter -/

/-- The scanner refines the structurally recursive reference emitter:
on the flattening of any admissible syntax tree, starting from any
state, it produces exactly `specOut` and returns with the *same* stack
it started from.  Since in `specOut` the `]` of a loop node emits
`closeLines` with the very label its matching `[` allocated, this is
the LIFO-discipline-equals-syntactic-matching property. -/
theorem runBody_spec : ∀ (t : T), okT t = true → ∀ (s : St),
    ∃ cap', s.cap ≤ cap' ∧
      runBody allocT (flat t) s =
        .ok (specOut s.loop t,
             { stack := s.stack, cap := cap', loop := nextLabel s.loop t }) := by
  intro t
  induction t with
  | nil =>
    intro _ s
    exact ⟨s.cap, le_refl _, rfl⟩
  | cons c t ih =>
    intro hok s
    simp only [okT, Bool.and_eq_true, Bool.not_eq_true',
      decide_eq_false_iff_not] at hok
    obtain ⟨⟨hc1, hc2⟩, hok⟩ := hok
    obtain ⟨cap', hle, hrun⟩ := ih hok s
    refine ⟨cap', hle, ?_⟩
    simp [flat, runBody_cons, step_other allocT s c hc1 hc2, hrun, specOut,
      nextLabel]
  | loop b t ihb iht =>
    intro hok s
    simp only [okT, Bool.and_eq_true] at hok
    obtain ⟨hokb, hokt⟩ := hok
    have hstep := step_open s
    obtain ⟨cap1, hle1, hrunb⟩ :=
      ihb hokb { stack := (s.loop + 1) :: s.stack,
                 cap := if s.stack.length = s.cap then growSize s.cap
                        else s.cap,
                 loop := s.loop + 1 }
    have hstepc := step_close
      { stack := (s.loop + 1) :: s.stack, cap := cap1,
        loop := nextLabel (s.loop + 1) b } (s.loop + 1) s.stack rfl allocT
    obtain ⟨cap2, hle2, hrunt⟩ :=
      iht hokt { stack := s.stack, cap := cap1,
                 loop := nextLabel (s.loop + 1) b }
    refine ⟨cap2, ?_, ?_⟩
    · have h0 : s.cap ≤
          (if s.stack.length = s.cap then growSize s.cap else s.cap) := by
        split
        · exact growSize_le_self _
        · exact le_refl _
      exact le_trans h0 (le_trans hle1 hle2)
    · simp [flat, runBody_cons, runBody_append, hstep, hrunb, hstepc, hrunt,
        specOut, nextLabel, List.append_assoc]

/-- C4: the loop-stack discipline.  (1) *Depth*: after scanning any
prefix `p` of a well-formed source, the stack depth equals the number
of `[` seen minus the number of `]` seen (stated additively:
`depth + count ']' = count '['`).  (2) *Push/pop exactly on
brackets*: every successful `step` either consumed `[` and pushed one
new label on top of the unchanged rest, or consumed `]` and popped
exactly the top label, or consumed a non-bracket and left the stack
untouched.  (3) *Empty at both ends*: the stack is empty before the
first symbol, and after scanning a whole well-formed source it is
empty again.  (4) *Matching*: on (the flattening of) any well-formed
syntax tree the scan emits exactly the reference emission `specOut`,
in which each `]` emits `jnz`/`.LE` with precisely the label that its
syntactically matching `[` allocated — the label popped by each `]`
is the label pushed by its matching `[`. -/
theorem c4_loop_stack_discipline :
    (∀ (src : List Char) (p q : List Char), wellFormedB src = true →
       src = p ++ q →
       ∃ o1 s1, runBody allocT p initSt = .ok (o1, s1) ∧
         s1.stack.length + p.count ']' = p.count '[') ∧
    (∀ (a : Nat → Bool) (s : St) (c : Char) (o : List String) (s1 : St),
       step a s c = .ok (o, s1) →
       (c = '[' ∧ s1.stack = (s.loop + 1) :: s.stack) ∨
       (c = ']' ∧ ∃ l, s.stack = l :: s1.stack) ∨
       (c ≠ '[' ∧ c ≠ ']' ∧ s1.stack = s.stack)) ∧
    (initSt.stack = [] ∧
     (∀ (src : List Char), wellFormedB src = true →
        ∃ o s', runBody allocT src initSt = .ok (o, s') ∧ s'.stack = [])) ∧
    (∀ (t : T), okT t = true → ∀ (s : St),
       ∃ cap', runBody allocT (flat t) s =
         .ok (specOut s.loop t,
              { stack := s.stack, cap := cap',
                loop := nextLabel s.loop t })) := by
  refine ⟨?_, ?_, ⟨rfl, ?_⟩, ?_⟩
  · intro src p q hwf hpq
    obtain ⟨o1, s1, hrun, hlen, _⟩ :=
      runBody_bal p initSt (fun p1 q1 h1 => by
        have := wf_count_le hwf p1 (q1 ++ q) (by rw [hpq, h1, List.append_assoc])
        simpa [initSt] using this)
    have hlen' : s1.stack.length + p.count ']' =
        initSt.stack.length + p.count '[' := hlen
    exact ⟨o1, s1, hrun, by simpa [initSt] using hlen'⟩
  · intro a s c o s1 h
    rcases step_cases a s c o s1 h with
      ⟨hc, hstk, _⟩ | ⟨hc, l, hstk, _⟩ | ⟨hc1, hc2, hss, _⟩
    · exact Or.inl ⟨hc, hstk⟩
    · exact Or.inr (Or.inl ⟨hc, l, hstk⟩)
    · exact Or.inr (Or.inr ⟨hc1, hc2, by rw [hss]⟩)
  · intro src hwf
    obtain ⟨o, s', hrun, hlen, _⟩ :=
      runBody_bal src initSt (fun p q h1 => by
        have := wf_count_le hwf p q h1
        simpa [initSt] using this)
    have hc := wf_count_eq hwf
    have hlen' : s'.stack.length + src.count ']' =
        initSt.stack.length + src.count '[' := hlen
    refine ⟨o, s', hrun, List.length_eq_zero.mp ?_⟩
    have h0 : initSt.stack.length = 0 := rfl
    omega
  · intro t hok s
    obtain ⟨cap', _, hrun⟩ := runBody_spec t hok s
    exact ⟨cap', hrun⟩

/-- C4 witness, on the well-formed source `[-]` (tree
`loop (cons '-' nil) nil`): depth after the prefix `[` is 1; a `step`
on `+` from the initial state leaves the stack alone (third
disjunct); the full scan of `[-]` ends with an empty stack; and the
scan of the tree's flattening emits exactly the reference emission. -/
theorem c4_loop_stack_discipline_witness :
    (wellFormedB ['[', '-', ']'] = true ∧
     (∃ o1 s1, runBody allocT ['['] initSt = .ok (o1, s1) ∧
        s1.stack.length + (['[']).count ']' = (['[']).count '[')) ∧
    ((('+' : Char) = '[' ∧ initSt.stack = (initSt.loop + 1) :: initSt.stack) ∨
     (('+' : Char) = ']' ∧ ∃ l, initSt.stack = l :: initSt.stack) ∨
     (('+' : Char) ≠ '[' ∧ ('+' : Char) ≠ ']' ∧ initSt.stack = initSt.stack)) ∧
    (∃ o s', runBody allocT ['[', '-', ']'] initSt = .ok (o, s') ∧
       s'.stack = []) ∧
    (okT (T.loop (T.cons '-' T.nil) T.nil) = true ∧
     ∃ cap', runBody allocT (flat (T.loop (T.cons '-' T.nil) T.nil)) initSt =
       .ok (specOut initSt.loop (T.loop (T.cons '-' T.nil) T.nil),
            { stack := initSt.stack, cap := cap',
              loop := nextLabel initSt.loop (T.loop (T.cons '-' T.nil) T.nil) })) :=
  ⟨⟨by decide,
    c4_loop_stack_discipline.1 ['[', '-', ']'] ['['] ['-', ']'] (by decide) rfl⟩,
   c4_loop_stack_discipline.2.1 allocT initSt '+' (baseLines '+') initSt
     (by decide),
   c4_loop_stack_discipline.2.2.1.2 ['[', '-', ']'] (by decide),
   ⟨by decide,
    c4_loop_stack_discipline.2.2.2 (T.loop (T.cons '-' T.nil) T.nil)
      (by decide) initSt⟩⟩

/-! ### Determinism / capacity-independence (C9)

The only state of `compile` beyond the input and the configured cell
count is the loop stack's backing array and its capacity bookkeeping.
The observable behaviour — the emitted lines, the label values, the
stack contents — is independent of the capacity, so the output is a
function of the source and the cell count alone. -/

theorem runBody_cons_eq_ok (a : Nat → Bool) (c : Char) (cs : List Char)
    (s : St) (o1 : List String) (s1 : St) (h : step a s c = .ok (o1, s1)) :
    runBody a (c :: cs) s = contOut o1 (runBody a cs s1) := by
  conv_lhs => rw [runBody_cons, h]
  rfl

theorem obs_congr (o : List String) (r1 r2 : Except Err (List String × St))
    (h : obsOf r1 = obsOf r2) : obsOf (contOut o r1) = obsOf (contOut o r2) := by
  cases r1 with
  | error e =>
    cases r2 with
    | error e2 =>
      simp only [obsOf, Except.map, Except.error.injEq] at h
      simp [contOut, obsOf, Except.map, h]
    | ok p2 => simp [obsOf, Except.map] at h
  | ok p1 =>
    cases r2 with
    | error e2 => simp [obsOf, Except.map] at h
    | ok p2 =>
      obtain ⟨o1, t1⟩ := p1
      obtain ⟨o2, t2⟩ := p2
      simp only [obsOf, Except.map, Except.ok.injEq, Prod.mk.injEq] at h
      obtain ⟨ho, hs, hl⟩ := h
      simp [contOut, obsOf, Except.map, ho, hs, hl]

/-- Two scans from states agreeing on stack contents and label counter
(but with arbitrary capacities) have identical observable outcomes:
same emitted lines, same final stack, same final counter, and
identical error if any. -/
theorem runBody_obs : ∀ (src : List Char) (s t : St),
    s.stack = t.stack → s.loop = t.loop →
    obsOf (runBody allocT src s) = obsOf (runBody allocT src t) := by
  intro src
  induction src with
  | nil =>
    intro s t h1 h2
    simp [runBody_nil, obsOf, Except.map, h1, h2]
  | cons c cs ih =>
    intro s t h1 h2
    by_cases hc1 : c = '['
    · subst hc1
      rw [runBody_cons_eq_ok allocT '[' cs s _ _ (step_open s),
          runBody_cons_eq_ok allocT '[' cs t _ _ (step_open t), h1, h2]
      exact obs_congr _ _ _ (ih _ _ rfl rfl)
    · by_cases hc2 : c = ']'
      · subst hc2
        cases hst : s.stack with
        | nil =>
          have hst' : t.stack = [] := by rw [← h1, hst]
          rw [runBody_cons, runBody_cons, step_close_nil s hst allocT,
              step_close_nil t hst' allocT]
        | cons l rest =>
          have hst' : t.stack = l :: rest := by rw [← h1, hst]
          rw [runBody_cons_eq_ok allocT ']' cs s _ _
                (step_close s l rest hst allocT),
              runBody_cons_eq_ok allocT ']' cs t _ _
                (step_close t l rest hst' allocT)]
          exact obs_congr _ _ _ (ih _ _ rfl h2)
      · rw [runBody_cons_eq_ok allocT c cs s _ _ (step_other allocT s c hc1 hc2),
            runBody_cons_eq_ok allocT c cs t _ _ (step_other allocT t c hc1 hc2)]
        exact obs_congr _ _ _ (ih s t h1 h2)

/-- C9: translation is deterministic.  The assembly output is a
function of the source sequence and the cell count alone: it is
byte-identical across repeated runs, and it is even independent of the
loop stack's capacity bookkeeping (the only hidden state of the
translation) — running from *any* two initial capacities yields
identical results, errors included. -/
theorem c9_deterministic :
    ∀ (cells : Nat) (src : List Char) (c1 c2 : Nat),
      compileFrom allocT c1 cells src = compileFrom allocT c2 cells src ∧
      compile allocT cells src = compile allocT cells src := by
  intro cells src c1 c2
  refine ⟨?_, rfl⟩
  unfold compileFrom
  rw [if_neg (by simp [allocT]), if_neg (by simp [allocT])]
  have hobs := runBody_obs src { stack := [], cap := c1, loop := 0 }
    { stack := [], cap := c2, loop := 0 } rfl rfl
  cases hL : runBody allocT src { stack := [], cap := c1, loop := 0 } with
  | error e =>
    cases hR : runBody allocT src { stack := [], cap := c2, loop := 0 } with
    | error e2 =>
      rw [hL, hR] at hobs
      simp [obsOf, Except.map] at hobs
      simp [hobs]
    | ok p =>
      rw [hL, hR] at hobs
      simp [obsOf, Except.map] at hobs
  | ok p =>
    obtain ⟨o, s1⟩ := p
    cases hR : runBody allocT src { stack := [], cap := c2, loop := 0 } with
    | error e2 =>
      rw [hL, hR] at hobs
      simp [obsOf, Except.map] at hobs
    | ok p2 =>
      obtain ⟨o2, s2⟩ := p2
      rw [hL, hR] at hobs
      simp [obsOf, Except.map] at hobs
      simp [hobs.1]

/-! ### The stack growth policy (C5) -/

theorem runBody_cap_mono (a : Nat → Bool) :
    ∀ (src : List Char) (s : St) (o : List String) (s1 : St),
      runBody a src s = .ok (o, s1) → s.cap ≤ s1.cap := by
  intro src
  induction src with
  | nil =>
    intro s o s1 h
    rw [runBody_nil, Except.ok.injEq, Prod.mk.injEq] at h
    rw [← h.2]
  | cons c cs ih =>
    intro s o s1 h
    rw [runBody_cons] at h
    split at h
    · exact absurd h (by simp)
    · rename_i o1 smid hstep
      split at h
      · exact absurd h (by simp)
      · rename_i o2 s2 hrun
        rw [Except.ok.injEq, Prod.mk.injEq] at h
        have hs2 : s2 = s1 := h.2
        subst hs2
        have htail := ih smid o2 s2 hrun
        rcases step_cases a s c o1 smid hstep with
          ⟨_, _, _, hcap, _⟩ | ⟨_, l, _, _, hcap, _⟩ | ⟨_, _, hss, _⟩
        · rw [hcap] at htail
          refine le_trans ?_ htail
          split
          · exact growSize_le_self _
          · exact le_refl _
        · rw [← hcap]
          exact htail
        · rw [← hss]
          exact htail

/-- C5: the loop-stack growth policy.  (1) For every capacity of at
least 10 — and every capacity `compile` can grow from is at least the
initial 1024 by conjunct (5) — the grown capacity
`growSize n` (the exact value of the C's
`(size_t)(n * STACK_GROWTH_FACTOR)`) is at least `n + 1`, so each grow
step makes progress.  (2) When the stack is full and the (re)allocation
succeeds, `[` grows the capacity to exactly `growSize cap` and pushes
the fresh label on top of the *unchanged* previous contents in their
original order.  (3) When the stack is full and the reallocation
fails, the step is the fatal out-of-memory error carrying the
requested size.  (4) A fatal error aborts the whole compilation: no
suffix of the input is ever processed past it.  (5) Capacity never
shrinks during a scan, so within `compile` (initial capacity
`STACK_SIZE = 1024`) every grow step starts from a capacity of at
least 1024. -/
theorem c5_growth_policy :
    (∀ n : Nat, 10 ≤ n → n + 1 ≤ growSize n) ∧
    (∀ (a : Nat → Bool) (s : St), s.stack.length = s.cap →
       a (growSize s.cap) = true →
       step a s '[' =
         .ok (openLines (s.loop + 1),
              { stack := (s.loop + 1) :: s.stack, cap := growSize s.cap,
                loop := s.loop + 1 })) ∧
    (∀ (a : Nat → Bool) (s : St), s.stack.length = s.cap →
       a (growSize s.cap) = false →
       step a s '[' = .error (.oom (growSize s.cap))) ∧
    (∀ (a : Nat → Bool) (p q : List Char) (s : St) (e : Err),
       runBody a p s = .error e → runBody a (p ++ q) s = .error e) ∧
    (∀ (a : Nat → Bool) (src : List Char) (s : St) (o : List String) (s1 : St),
       runBody a src s = .ok (o, s1) → s.cap ≤ s1.cap) := by
  refine ⟨fun n h => growSize_progress h, ?_, ?_, ?_,
    fun a => runBody_cap_mono a⟩
  · intro a s hfull ha
    simp [step, hfull, ha]
  · intro a s hfull ha
    simp [step, hfull, ha]
  · intro a p q s e h
    rw [runBody_append, h]

/-- C5 witness: growing from the initial capacity 1024 reaches 1126
(≥ 1025); a full 3-slot stack `[3, 2, 1]` grows and receives the
pushed label 4 with its old contents intact and in order; the same
push under an allocator that refuses the request is the fatal
out-of-memory error; after the failing scan of `]++` nothing further
is processed; and a successful scan never shrinks the capacity. -/
theorem c5_growth_policy_witness :
    (1024 + 1 ≤ growSize 1024 ∧ growSize 1024 = 1126) ∧
    step allocT { stack := [3, 2, 1], cap := 3, loop := 3 } '[' =
      .ok (openLines 4,
           { stack := [4, 3, 2, 1], cap := growSize 3, loop := 4 }) ∧
    step (fun _ => false) { stack := [3, 2, 1], cap := 3, loop := 3 } '[' =
      .error (.oom (growSize 3)) ∧
    runBody allocT ([']'] ++ ['+', '+']) initSt = .error .oobPop ∧
    initSt.cap ≤ St.cap { stack := [1], cap := 1024, loop := 1 } :=
  ⟨⟨c5_growth_policy.1 1024 (by decide), by decide⟩,
   c5_growth_policy.2.1 allocT { stack := [3, 2, 1], cap := 3, loop := 3 }
     (by decide) rfl,
   c5_growth_policy.2.2.1 (fun _ => false)
     { stack := [3, 2, 1], cap := 3, loop := 3 } (by decide) rfl,
   c5_growth_policy.2.2.2.1 allocT [']'] ['+', '+'] initSt .oobPop (by decide),
   c5_growth_policy.2.2.2.2 allocT ['['] initSt (openLines 1)
     { stack := [1], cap := 1024, loop := 1 } (by decide)⟩

/-! ### Cell-array size validation (C6) -/

theorem clampLong_le (v : Int) (tail : List Char) :
    (clampLong v tail).erange = false → (clampLong v tail).value ≤ LONG_MAX := by
  unfold clampLong
  split
  · intro h
    exact absurd h (by simp)
  · split
    · intro h
      exact absurd h (by simp)
    · rename_i hgt
      intro _
      show v ≤ LONG_MAX
      omega

theorem strtolFinish_le (input : List Char) (neg : Bool) (base : Nat)
    (digs rest : List Char) :
    (strtolFinish input neg base digs rest).erange = false →
    (strtolFinish input neg base digs rest).value ≤ LONG_MAX := by
  have hM : LONG_MAX = 2147483647 := by norm_num [LONG_MAX]
  unfold strtolFinish
  split
  · intro _
    show (0 : Int) ≤ LONG_MAX
    omega
  · exact clampLong_le _ _

/-- When `strtol` does not set `ERANGE`, the converted value is within
the `long` range; in particular it is at most `LONG_MAX`. -/
theorem strtol0_le (input : List Char) :
    (strtol0 input).erange = false → (strtol0 input).value ≤ LONG_MAX := by
  unfold strtol0
  dsimp only
  exact strtolFinish_le _ _ _ _ _

/-- C6: a `-s` argument that is non-positive or not fully parsable is
rejected before translation begins — `setup_info` returns failure and
`main` exits without invoking `compile` — and every accepted value is
at least 1 (and at most `LONG_MAX`, so the assignment to the
`unsigned int` field preserves it); consequently the cell count used
by translation is always at least 1 (the default being 4096). -/
theorem c6_cells_size_validation :
    (∀ (arg : List Char) (v : Nat), parseCellsSize arg = some v →
       1 ≤ v ∧ (v : Int) ≤ LONG_MAX) ∧
    (∀ (alloc : Nat → Bool) (arg src : List Char),
       parseCellsSize arg = none →
       mainModel alloc (some arg) src = .error .usageErr) ∧
    (∀ (alloc : Nat → Bool) (arg src : List Char) (v : Nat),
       parseCellsSize arg = some v →
       mainModel alloc (some arg) src =
         (compile alloc v src).mapError .compileErr) ∧
    (∀ (alloc : Nat → Bool) (src : List Char),
       mainModel alloc none src =
         (compile alloc 4096 src).mapError .compileErr) := by
  have hM : LONG_MAX = 2147483647 := by norm_num [LONG_MAX]
  refine ⟨?_, ?_, ?_, fun alloc src => rfl⟩
  · intro arg v hp
    unfold parseCellsSize at hp
    split at hp
    · exact absurd hp (by simp)
    · rename_i hcond
      push_neg at hcond
      obtain ⟨h1, h2, h3⟩ := hcond
      have h1' : (strtol0 arg).erange = false := by
        simpa using h1
      have hle := strtol0_le arg h1'
      rw [Option.some.injEq] at hp
      subst hp
      constructor
      · omega
      · omega
  · intro alloc arg src h
    simp [mainModel, h]
  · intro alloc arg src v h
    simp [mainModel, h]

/-- C6 witness: `4096` parses to 4096 (so is at least 1); `-5` is
rejected and `main` stops with the usage error before translating;
`1` is accepted and translation runs with cell count 1; with no `-s`
the default 4096 is used. -/
theorem c6_cells_size_validation_witness :
    (1 ≤ 4096 ∧ ((4096 : Nat) : Int) ≤ LONG_MAX) ∧
    mainModel allocT (some ['-', '5']) ['+'] = .error .usageErr ∧
    mainModel allocT (some ['1']) ['+'] =
      (compile allocT 1 ['+']).mapError .compileErr ∧
    mainModel allocT none ['+'] =
      (compile allocT 4096 ['+']).mapError .compileErr :=
  ⟨c6_cells_size_validation.1 ['4', '0', '9', '6'] 4096 (by decide),
   c6_cells_size_validation.2.1 allocT ['-', '5'] ['+'] (by decide),
   c6_cells_size_validation.2.2.1 allocT ['1'] ['+'] 1 (by decide),
   c6_cells_size_validation.2.2.2 allocT ['+']⟩

end Bfc
